import Mathlib

/-!
# PID controller of `roboost/utils/controllers.cpp`

Shallow embedding of `roboost::controllers::PIDController`.

* The `double` values the caller supplies and the controller stores (gains, bound,
  setpoint, input, integral, previous error) are finite and idealised as exact rationals
  (`ℚ`). `update` is the code with exact arithmetic; `update_rounded` is the same code with
  every arithmetic result rounded, for the properties that depend on rounding.
* The quotient of line 39 is an infinity or NaN when `dt = 0`; the values that travel
  through the filter and the value then returned are of type `Double`, which adds the two
  infinities and NaN to the finite values.
* The controller holds a reference to a `Filter`; here the filter's internal state is a
  field of the controller record and the filter's operations are passed as a `Filter σ`.
* The value delivered by `timing_service_.getDeltaTime()` in a call of `update` is an
  argument of `update` (`us`, integer microseconds).
-/

namespace roboost

/-- A value of type `double`: a finite number (idealised as an exact rational), one of the
two infinities, or NaN. -/
inductive Double where
  | fin (q : ℚ)
  | pos_inf
  | neg_inf
  | nan
deriving DecidableEq

namespace Double

/-- Sum of two doubles, with the IEEE 754 rules for infinities and NaN. -/
def add : Double → Double → Double
  | fin a, fin b => fin (a + b)
  | fin _, pos_inf => pos_inf
  | fin _, neg_inf => neg_inf
  | fin _, nan => nan
  | pos_inf, fin _ => pos_inf
  | pos_inf, pos_inf => pos_inf
  | pos_inf, neg_inf => nan
  | pos_inf, nan => nan
  | neg_inf, fin _ => neg_inf
  | neg_inf, pos_inf => nan
  | neg_inf, neg_inf => neg_inf
  | neg_inf, nan => nan
  | nan, _ => nan

/-- Product of a finite value and an infinity of the given sign (`true` for `+inf`):
NaN when the finite value is zero. -/
def mul_inf (a : ℚ) (positive : Bool) : Double :=
  if a = 0 then nan
  else if 0 < a then (if positive then pos_inf else neg_inf)
  else (if positive then neg_inf else pos_inf)

/-- Product of two doubles, with the IEEE 754 rules for infinities and NaN. -/
def mul : Double → Double → Double
  | fin a, fin b => fin (a * b)
  | fin a, pos_inf => mul_inf a true
  | fin a, neg_inf => mul_inf a false
  | fin _, nan => nan
  | pos_inf, fin b => mul_inf b true
  | pos_inf, pos_inf => pos_inf
  | pos_inf, neg_inf => neg_inf
  | pos_inf, nan => nan
  | neg_inf, fin b => mul_inf b false
  | neg_inf, pos_inf => neg_inf
  | neg_inf, neg_inf => pos_inf
  | neg_inf, nan => nan
  | nan, _ => nan

instance : Add Double := ⟨add⟩

instance : Mul Double := ⟨mul⟩

/-- Quotient `a / dt` for a finite `a` and `dt = +0.0`: `+inf` for a positive `a`, `-inf` for
a negative `a` and NaN for `a = 0`. -/
def div_zero (a : ℚ) : Double :=
  if a > 0 then pos_inf else if a < 0 then neg_inf else nan

/-- Quotient `a / b` of two finite values, `b` being `+0.0` when it is zero. -/
def quot (a b : ℚ) : Double :=
  if b = 0 then div_zero a else fin (a / b)

/-- Rounding of the result of an operation: finite results are rounded by `rnd`, infinities
and NaN stay. -/
def round (rnd : ℚ → ℚ) : Double → Double
  | fin q => fin (rnd q)
  | v => v

end Double

/-- Nearest integer, ties to the even one. -/
def round_half_even (q : ℚ) : ℤ :=
  if q - ⌊q⌋ < 1 / 2 then ⌊q⌋
  else if 1 / 2 < q - ⌊q⌋ then ⌊q⌋ + 1
  else if ⌊q⌋ % 2 = 0 then ⌊q⌋
  else ⌊q⌋ + 1

/-- Rounding of an exact result to the nearest `double` (IEEE 754 binary64: 53 significant
bits, round to nearest, ties to even). The exponent range is taken as unbounded: overflow
and subnormal numbers are outside the model. -/
def binary64 (x : ℚ) : ℚ :=
  if x = 0 then 0
  else round_half_even (x / 2 ^ (Int.log 2 |x| - 52)) * 2 ^ (Int.log 2 |x| - 52)

/-- Interface of `roboost::filters::Filter` as the controller uses it. `update` is the
filter's `update` on a finite raw value: it gives the smoothed value, taken to be finite,
and the filter's next internal state. `update_nonfinite` is the same method on a raw value
that is an infinity or NaN; its answer may be any double. `reset` clears the internal state
and `get_output` reads the last smoothed value. -/
structure Filter (σ : Type) where
  update : σ → ℚ → ℚ × σ
  update_nonfinite : σ → Double → Double × σ
  reset : σ → σ
  get_output : σ → Double

/-- The filter's `update` method on any double. -/
def Filter.feed {σ : Type} (F : Filter σ) (fs : σ) : Double → Double × σ
  | Double.fin q => (Double.fin (F.update fs q).1, (F.update fs q).2)
  | Double.pos_inf => F.update_nonfinite fs Double.pos_inf
  | Double.neg_inf => F.update_nonfinite fs Double.neg_inf
  | Double.nan => F.update_nonfinite fs Double.nan

/-- Modelled from the spec: the conversion `MICROS_TO_SECONDS_DOUBLE` used on line 25 is
declared in a header that is not part of the sources; the spec says that the integer
microseconds are "converted to seconds by dividing by 1,000,000". -/
def MICROS_TO_SECONDS_DOUBLE (us : ℤ) : ℚ := (us : ℚ) / 1000000

/-- Data members of `PIDController`. `derivative_filter` is the internal state of the
referenced filter. -/
structure PIDController (σ : Type) where
  kp : ℚ
  ki : ℚ
  kd : ℚ
  integral : ℚ
  previous_error : ℚ
  derivative_filter : σ
  max_integral : ℚ
deriving DecidableEq

/-- Outcome of one call of `update`, which leaves the controller in state `c`. Either the
division on line 39 is defined (`dt` is not zero) and the call returns the finite value
`output`; or line 39 divides by zero: the quotient is an infinity or NaN, lines 39-44 run on
with it and the call returns the double `output`. -/
inductive UpdateResult (σ : Type) where
  | returned (output : ℚ) (c : PIDController σ)
  | div_by_zero (output : Double) (c : PIDController σ)
deriving DecidableEq

/-- Controller state after the call. -/
def UpdateResult.state {σ : Type} : UpdateResult σ → PIDController σ
  | .returned _ c => c
  | .div_by_zero _ c => c

/-- Value returned by a call whose division was defined; `none` for a call that divided by
zero. -/
def UpdateResult.output {σ : Type} : UpdateResult σ → Option ℚ
  | .returned o _ => some o
  | .div_by_zero _ _ => none

/-- The double returned by the call. -/
def UpdateResult.value {σ : Type} : UpdateResult σ → Double
  | .returned o _ => Double.fin o
  | .div_by_zero v _ => v

namespace PIDController

variable {σ : Type}

/-- Constructor, lines 18-21: the gains and the bound are stored as given, `integral_` and
`previous_error_` start at `0.0`, the filter is only referenced (state `f`). -/
def new (kp ki kd max_integral : ℚ) (f : σ) : PIDController σ :=
  { kp := kp, ki := ki, kd := kd, integral := 0, previous_error := 0,
    derivative_filter := f, max_integral := max_integral }

/-- Method `PIDController::update`, lines 23-45, with exact arithmetic. -/
def update (F : Filter σ) (c : PIDController σ) (setpoint input : ℚ) (us : ℤ) :
    UpdateResult σ :=
  let dt := MICROS_TO_SECONDS_DOUBLE us
  let error := setpoint - input
  let c := { c with integral := c.integral + error * dt }
  let c :=
    if c.integral > c.max_integral then { c with integral := c.max_integral }
    else if c.integral < -c.max_integral then { c with integral := -c.max_integral }
    else c
  if dt = 0 then
    let r := F.update_nonfinite c.derivative_filter (Double.div_zero (error - c.previous_error))
    let derivative := r.1
    let c := { c with derivative_filter := r.2, previous_error := error }
    .div_by_zero
      (Double.fin (c.kp * error + c.ki * c.integral) + Double.fin c.kd * derivative) c
  else
    let r := F.update c.derivative_filter ((error - c.previous_error) / dt)
    let derivative := r.1
    let c := { c with derivative_filter := r.2, previous_error := error }
    .returned (c.kp * error + c.ki * c.integral + c.kd * derivative) c

/-- Method `PIDController::update`, lines 23-45, with the result of every arithmetic
operation rounded by `rnd` (comparisons and the negation of the bound are exact). -/
def update_rounded (rnd : ℚ → ℚ) (F : Filter σ) (c : PIDController σ) (setpoint input : ℚ)
    (us : ℤ) : UpdateResult σ :=
  let dt := rnd (MICROS_TO_SECONDS_DOUBLE us)
  let error := rnd (setpoint - input)
  let c := { c with integral := rnd (c.integral + rnd (error * dt)) }
  let c :=
    if c.integral > c.max_integral then { c with integral := c.max_integral }
    else if c.integral < -c.max_integral then { c with integral := -c.max_integral }
    else c
  if dt = 0 then
    let r := F.update_nonfinite c.derivative_filter
      (Double.div_zero (rnd (error - c.previous_error)))
    let derivative := r.1
    let c := { c with derivative_filter := r.2, previous_error := error }
    .div_by_zero
      (Double.round rnd
        (Double.fin (rnd (rnd (c.kp * error) + rnd (c.ki * c.integral))) +
          Double.round rnd (Double.fin c.kd * derivative))) c
  else
    let r := F.update c.derivative_filter (rnd (rnd (error - c.previous_error) / dt))
    let derivative := r.1
    let c := { c with derivative_filter := r.2, previous_error := error }
    .returned
      (rnd (rnd (rnd (c.kp * error) + rnd (c.ki * c.integral)) + rnd (c.kd * derivative))) c

/-- Method `PIDController::reset`, lines 47-52. -/
def reset (F : Filter σ) (c : PIDController σ) : PIDController σ :=
  { c with integral := 0, previous_error := 0, derivative_filter := F.reset c.derivative_filter }

/-- Line 54. -/
def get_kp (c : PIDController σ) : ℚ := c.kp

/-- Line 56. -/
def get_ki (c : PIDController σ) : ℚ := c.ki

/-- Line 58. -/
def get_kd (c : PIDController σ) : ℚ := c.kd

/-- Line 60. -/
def get_max_integral (c : PIDController σ) : ℚ := c.max_integral

/-- Line 62. -/
def get_integral (c : PIDController σ) : ℚ := c.integral

/-- Line 64: delegates to the filter's own accessor. -/
def get_derivative (F : Filter σ) (c : PIDController σ) : Double :=
  F.get_output c.derivative_filter

/-- Line 66. -/
def get_previous_error (c : PIDController σ) : ℚ := c.previous_error

/-- Line 68. -/
def set_kp (c : PIDController σ) (kp : ℚ) : PIDController σ := { c with kp := kp }

/-- Line 70. -/
def set_ki (c : PIDController σ) (ki : ℚ) : PIDController σ := { c with ki := ki }

/-- Line 72. -/
def set_kd (c : PIDController σ) (kd : ℚ) : PIDController σ := { c with kd := kd }

end PIDController

/-- Arguments of one call of `update` together with the timing-service reading of that call. -/
structure Call where
  setpoint : ℚ
  input : ℚ
  us : ℤ
deriving DecidableEq

/-- Consecutive calls of `update` on one controller: the outcome of every call, in order,
each call starting from the state the previous one left. -/
def PIDController.run {σ : Type} (F : Filter σ) :
    PIDController σ → List Call → List (UpdateResult σ)
  | _, [] => []
  | c, k :: ks =>
    c.update F k.setpoint k.input k.us ::
      PIDController.run F (c.update F k.setpoint k.input k.us).state ks

/-- Modelled from the spec: the pass-through (identity) filter of Scenario C, whose classes
live in a header that is not part of the sources. Its state is the last value it returned;
`reset` puts it back to `0`. -/
def passThrough : Filter Double :=
  { update := fun _ x => (x, Double.fin x),
    update_nonfinite := fun _ v => (v, v),
    reset := fun _ => Double.fin 0,
    get_output := fun s => s }

/-- One call made on a filter. -/
inductive FilterCall where
  | update (x : ℚ)
  | update_nonfinite (v : Double)
  | reset
deriving DecidableEq

/-- Test double that records, in order, every call made on it (its state is the log); it
always answers `0`. -/
def recorder : Filter (List FilterCall) :=
  { update := fun log x => (0, log ++ [FilterCall.update x]),
    update_nonfinite := fun log v => (Double.fin 0, log ++ [FilterCall.update_nonfinite v]),
    reset := fun log => log ++ [FilterCall.reset],
    get_output := fun _ => Double.fin 0 }

/-- A public operation that changes the controller. -/
inductive Op where
  | update (k : Call)
  | reset
  | set_kp (v : ℚ)
  | set_ki (v : ℚ)
  | set_kd (v : ℚ)
deriving DecidableEq

/-- State after a sequence of public operations. -/
def PIDController.exec {σ : Type} (F : Filter σ) :
    PIDController σ → List Op → PIDController σ
  | c, [] => c
  | c, Op.update k :: ops =>
    PIDController.exec F (c.update F k.setpoint k.input k.us).state ops
  | c, Op.reset :: ops => PIDController.exec F (c.reset F) ops
  | c, Op.set_kp v :: ops => PIDController.exec F (c.set_kp v) ops
  | c, Op.set_ki v :: ops => PIDController.exec F (c.set_ki v) ops
  | c, Op.set_kd v :: ops => PIDController.exec F (c.set_kd v) ops

/-- Everything a controller stores apart from its gains: `integral_`, `previous_error_`,
the state of the referenced filter and `max_integral_`. -/
def PIDController.internal {σ : Type} (c : PIDController σ) : ℚ × ℚ × σ × ℚ :=
  (c.integral, c.previous_error, c.derivative_filter, c.max_integral)

/-- Whether an operation is one of the three gain setters. -/
def Op.isGainSetter : Op → Bool
  | Op.set_kp _ => true
  | Op.set_ki _ => true
  | Op.set_kd _ => true
  | _ => false

/-! ## Auxiliary facts about `update` and `run` -/

theorem Double.add_def (a b : Double) : a + b = Double.add a b := rfl

theorem Double.mul_def (a b : Double) : a * b = Double.mul a b := rfl

theorem Double.fin_add_fin (a b : ℚ) : Double.fin a + Double.fin b = Double.fin (a + b) := rfl

theorem Double.fin_mul_fin (a b : ℚ) : Double.fin a * Double.fin b = Double.fin (a * b) := rfl

theorem Double.round_id (v : Double) : Double.round id v = v := by
  cases v <;> rfl

/-- An integer is its own nearest integer. -/
theorem round_half_even_intCast (n : ℤ) : round_half_even (n : ℚ) = n := by
  simp [round_half_even]

/-- Value of `binary64` at a number whose binary exponent `e` is known. -/
theorem binary64_of_exponent (x : ℚ) (e : ℤ) (h1 : (2 : ℚ) ^ e ≤ |x|)
    (h2 : |x| < (2 : ℚ) ^ (e + 1)) :
    binary64 x = round_half_even (x / 2 ^ (e - 52)) * 2 ^ (e - 52) := by
  have hpos : 0 < |x| := lt_of_lt_of_le (by positivity) h1
  have hx : x ≠ 0 := abs_pos.1 hpos
  have hlog : Int.log 2 |x| = e := by
    apply le_antisymm
    · have := (Int.lt_zpow_iff_log_lt (b := 2) (by norm_num) hpos (x := e + 1)).1
        (by exact_mod_cast h2)
      omega
    · exact (Int.zpow_le_iff_le_log (b := 2) (by norm_num) hpos).1 (by exact_mod_cast h1)
  rw [binary64, if_neg hx, hlog]

theorem binary64_zero : binary64 0 = 0 := by
  simp [binary64]

theorem binary64_one : binary64 1 = 1 := by
  rw [binary64_of_exponent 1 0 (by norm_num) (by norm_num)]
  have h : (1 : ℚ) / 2 ^ ((0 : ℤ) - 52) = ((4503599627370496 : ℤ) : ℚ) := by norm_num
  rw [h, round_half_even_intCast]
  norm_num

/-- The double `10000000000000002` is representable. -/
theorem binary64_1e16_add_2 : binary64 10000000000000002 = 10000000000000002 := by
  rw [binary64_of_exponent 10000000000000002 53 (by norm_num) (by norm_num)]
  have h : (10000000000000002 : ℚ) / 2 ^ ((53 : ℤ) - 52) = ((5000000000000001 : ℤ) : ℚ) := by
    norm_num
  rw [h, round_half_even_intCast]
  norm_num

/-- The double `10000000000000004` is representable. -/
theorem binary64_1e16_add_4 : binary64 10000000000000004 = 10000000000000004 := by
  rw [binary64_of_exponent 10000000000000004 53 (by norm_num) (by norm_num)]
  have h : (10000000000000004 : ℚ) / 2 ^ ((53 : ℤ) - 52) = ((5000000000000002 : ℤ) : ℚ) := by
    norm_num
  rw [h, round_half_even_intCast]
  norm_num

/-- The number `10000000000000003` lies half way between two doubles and is rounded to the
one with the even significand. -/
theorem binary64_1e16_add_3 : binary64 10000000000000003 = 10000000000000004 := by
  rw [binary64_of_exponent 10000000000000003 53 (by norm_num) (by norm_num)]
  have hf : ⌊(10000000000000003 : ℚ) / 2 ^ ((53 : ℤ) - 52)⌋ = 5000000000000001 := by
    rw [Int.floor_eq_iff]
    constructor <;> norm_num
  have hr : round_half_even ((10000000000000003 : ℚ) / 2 ^ ((53 : ℤ) - 52))
      = 5000000000000002 := by
    unfold round_half_even
    rw [hf]
    norm_num
  rw [hr]
  norm_num

theorem micros_eq_zero_iff (us : ℤ) : MICROS_TO_SECONDS_DOUBLE us = 0 ↔ us = 0 := by
  simp [MICROS_TO_SECONDS_DOUBLE]

theorem micros_pos {us : ℤ} (h : 0 < us) : 0 < MICROS_TO_SECONDS_DOUBLE us := by
  have h1 : (0 : ℚ) < (us : ℚ) := by exact_mod_cast h
  unfold MICROS_TO_SECONDS_DOUBLE
  positivity

/-- Value left in `integral_` by lines 28-38, at every time step. -/
theorem update_state_integral {σ : Type} (F : Filter σ) (c : PIDController σ)
    (setpoint input : ℚ) (us : ℤ) :
    (c.update F setpoint input us).state.integral =
      if c.integral + (setpoint - input) * MICROS_TO_SECONDS_DOUBLE us > c.max_integral then
        c.max_integral
      else if c.integral + (setpoint - input) * MICROS_TO_SECONDS_DOUBLE us < -c.max_integral then
        -c.max_integral
      else c.integral + (setpoint - input) * MICROS_TO_SECONDS_DOUBLE us := by
  simp only [PIDController.update, gt_iff_lt]
  split_ifs <;> simp [UpdateResult.state]

/-- The gains and the bound are the same in the state held by the outcome of `update`. -/
theorem update_state_params {σ : Type} (F : Filter σ) (c : PIDController σ)
    (setpoint input : ℚ) (us : ℤ) :
    (c.update F setpoint input us).state.kp = c.kp ∧
    (c.update F setpoint input us).state.ki = c.ki ∧
    (c.update F setpoint input us).state.kd = c.kd ∧
    (c.update F setpoint input us).state.max_integral = c.max_integral := by
  simp only [PIDController.update, gt_iff_lt]
  split_ifs <;> simp [UpdateResult.state]

/-- With a non-zero time step the division is defined, and the outcome is determined by the
state it holds: the output is the weighted sum over the stored integral and the filter's
answer, the stored error is the new error and the filter has made one step. -/
theorem update_returned {σ : Type} (F : Filter σ) (c : PIDController σ)
    (setpoint input : ℚ) (us : ℤ) (h : MICROS_TO_SECONDS_DOUBLE us ≠ 0) :
    c.update F setpoint input us =
      .returned
        (c.kp * (setpoint - input) + c.ki * (c.update F setpoint input us).state.integral +
          c.kd * (F.update c.derivative_filter
            ((setpoint - input - c.previous_error) / MICROS_TO_SECONDS_DOUBLE us)).1)
        { c with
          integral := (c.update F setpoint input us).state.integral
          previous_error := setpoint - input
          derivative_filter := (F.update c.derivative_filter
            ((setpoint - input - c.previous_error) / MICROS_TO_SECONDS_DOUBLE us)).2 } := by
  simp only [PIDController.update, gt_iff_lt, if_neg h]
  split_ifs <;> simp [UpdateResult.state]

/-- With a non-zero time step the division is defined and `update` returns a finite value. -/
theorem update_returns {σ : Type} (F : Filter σ) (c : PIDController σ)
    (setpoint input : ℚ) (us : ℤ) (h : MICROS_TO_SECONDS_DOUBLE us ≠ 0) :
    ∃ o, c.update F setpoint input us = .returned o (c.update F setpoint input us).state := by
  have hr := update_returned F c setpoint input us h
  cases hu : c.update F setpoint input us with
  | returned o c' => exact ⟨o, rfl⟩
  | div_by_zero v c' => rw [hu] at hr; cases hr

/-- With a zero time step line 39 divides by zero: the filter is handed the infinity or NaN
of `Double.div_zero`, the stored error is the new error and the value returned is the
weighted sum over the stored integral and the filter's answer. -/
theorem update_div_by_zero {σ : Type} (F : Filter σ) (c : PIDController σ)
    (setpoint input : ℚ) (us : ℤ) (h : MICROS_TO_SECONDS_DOUBLE us = 0) :
    c.update F setpoint input us =
      .div_by_zero
        (Double.fin (c.kp * (setpoint - input) +
            c.ki * (c.update F setpoint input us).state.integral) +
          Double.fin c.kd * (F.update_nonfinite c.derivative_filter
            (Double.div_zero (setpoint - input - c.previous_error))).1)
        { c with
          integral := (c.update F setpoint input us).state.integral
          previous_error := setpoint - input
          derivative_filter := (F.update_nonfinite c.derivative_filter
            (Double.div_zero (setpoint - input - c.previous_error))).2 } := by
  simp only [PIDController.update, gt_iff_lt, if_pos h]
  split_ifs <;> simp [UpdateResult.state]

/-- The stored error after `update` is the error of the call, at every time step. -/
theorem update_state_previous_error {σ : Type} (F : Filter σ) (c : PIDController σ)
    (setpoint input : ℚ) (us : ℤ) :
    (c.update F setpoint input us).state.previous_error = setpoint - input := by
  simp only [PIDController.update, gt_iff_lt]
  split_ifs <;> simp [UpdateResult.state]

/-- The filter makes one `update` step on the quotient of line 39, at every time step. -/
theorem update_state_filter {σ : Type} (F : Filter σ) (c : PIDController σ)
    (setpoint input : ℚ) (us : ℤ) :
    (c.update F setpoint input us).state.derivative_filter =
      (F.feed c.derivative_filter
        (Double.quot (setpoint - input - c.previous_error) (MICROS_TO_SECONDS_DOUBLE us))).2 := by
  by_cases h : MICROS_TO_SECONDS_DOUBLE us = 0
  · rw [update_div_by_zero F c setpoint input us h]
    simp only [UpdateResult.state, Double.quot, if_pos h, Double.div_zero]
    split_ifs <;> rfl
  · rw [update_returned F c setpoint input us h]
    simp only [UpdateResult.state, Double.quot, if_neg h]
    rfl

/-- Induction principle for `run`: a property of controller states that every call of
`update` (on arguments satisfying `G`) re-establishes, together with a property `P` of the
outcomes it then yields, gives `P` for every outcome of a run. -/
theorem run_forall {σ : Type} (F : Filter σ) (Inv : PIDController σ → Prop) (G : Call → Prop)
    (P : UpdateResult σ → Prop)
    (step : ∀ c k, Inv c → G k →
      P (c.update F k.setpoint k.input k.us) ∧ Inv (c.update F k.setpoint k.input k.us).state)
    (c : PIDController σ) (calls : List Call) (hc : Inv c) (hk : ∀ k ∈ calls, G k) :
    ∀ r ∈ PIDController.run F c calls, P r := by
  induction calls generalizing c with
  | nil => intro r hr; simp [PIDController.run] at hr
  | cons k ks ih =>
    have hs := step c k hc (hk k (List.mem_cons_self k ks))
    have hks : ∀ k' ∈ ks, G k' := fun k' hk' => hk k' (List.mem_cons_of_mem k hk')
    intro r hr
    simp only [PIDController.run, List.mem_cons] at hr
    rcases hr with rfl | hr
    · exact hs.1
    · exact ih _ hs.2 hks r hr

/-- A run executes every call. -/
theorem run_length {σ : Type} (F : Filter σ) (c : PIDController σ) (calls : List Call) :
    (PIDController.run F c calls).length = calls.length := by
  induction calls generalizing c with
  | nil => simp [PIDController.run]
  | cons k ks ih => simp [PIDController.run, ih]

/-- Bounds on the value chosen by lines 31-38 when the bound is not negative. -/
theorem update_state_integral_bounds {σ : Type} (F : Filter σ) (c : PIDController σ)
    (setpoint input : ℚ) (us : ℤ) (hm : 0 ≤ c.max_integral) :
    -c.max_integral ≤ (c.update F setpoint input us).state.integral ∧
    (c.update F setpoint input us).state.integral ≤ c.max_integral := by
  rw [update_state_integral]
  split_ifs with h1 h2
  · constructor <;> linarith
  · constructor <;> linarith
  · constructor
    · exact not_lt.1 h2
    · exact not_lt.1 h1

/-! ## Integral clamping -/

/-- C1 (amended): when the clamp bound is not negative, then from every controller state,
for every filter and every sequence of `update` calls with any time steps, the state held
after each call has the same `max_integral` and an integral within
`[-max_integral, max_integral]`; when every time step is non-zero every call of the
sequence is executed; a single call, whatever its time step (zero included), stores an
integral within the bounds; and every call of the sequence is executed whatever the time
steps. -/
theorem integral_clamped_after_every_update {σ : Type} (F : Filter σ) (c : PIDController σ)
    (calls : List Call) (hm : 0 ≤ c.max_integral) :
    (∀ r ∈ PIDController.run F c calls,
      r.state.max_integral = c.max_integral ∧
      -c.max_integral ≤ r.state.integral ∧ r.state.integral ≤ c.max_integral) ∧
    ((∀ k ∈ calls, k.us ≠ 0) → (PIDController.run F c calls).length = calls.length) ∧
    (∀ (setpoint input : ℚ) (us : ℤ),
      -c.max_integral ≤ (c.update F setpoint input us).state.integral ∧
      (c.update F setpoint input us).state.integral ≤ c.max_integral) ∧
    (PIDController.run F c calls).length = calls.length := by
  refine ⟨?_, fun _ => run_length F c calls, fun setpoint input us =>
    update_state_integral_bounds F c setpoint input us hm, run_length F c calls⟩
  refine run_forall F (fun c' => c'.max_integral = c.max_integral) (fun _ => True) _ ?_ c calls
    rfl (fun _ _ => trivial)
  intro c1 k h1 _
  have hp := (update_state_params F c1 k.setpoint k.input k.us).2.2.2
  have hb := update_state_integral_bounds F c1 k.setpoint k.input k.us (by rw [h1]; exact hm)
  rw [h1] at hp hb
  exact ⟨⟨hp, hb⟩, hp⟩

/-- Instance of C1: bound `5`, two calls with error `10` after one second and after two
seconds. -/
theorem integral_clamped_after_every_update_witness :
    (0 : ℚ) ≤ (PIDController.new 0 1 0 5 (Double.fin 0)).max_integral ∧
    (∀ r ∈ PIDController.run passThrough (PIDController.new 0 1 0 5 (Double.fin 0))
        [⟨10, 0, 1000000⟩, ⟨10, 0, 2000000⟩],
      r.state.max_integral = (PIDController.new 0 1 0 5 (Double.fin 0)).max_integral ∧
      -(PIDController.new 0 1 0 5 (Double.fin 0)).max_integral ≤ r.state.integral ∧
      r.state.integral ≤ (PIDController.new 0 1 0 5 (Double.fin 0)).max_integral) ∧
    (PIDController.run passThrough (PIDController.new 0 1 0 5 (Double.fin 0))
        [⟨10, 0, 1000000⟩, ⟨10, 0, 2000000⟩]).length = 2 := by
  have hm : (0 : ℚ) ≤ (PIDController.new 0 1 0 5 (Double.fin 0)).max_integral := by
    norm_num [PIDController.new]
  have h := integral_clamped_after_every_update passThrough (PIDController.new 0 1 0 5 (Double.fin 0))
    [⟨10, 0, 1000000⟩, ⟨10, 0, 2000000⟩] hm
  refine ⟨hm, h.1, h.2.1 ?_⟩
  intro k hk
  simp only [List.mem_cons, List.mem_singleton, List.not_mem_nil, or_false] at hk
  rcases hk with rfl | rfl <;> simp

/-- C1 as stated fails for a negative bound: with `max_integral = -1` one call with zero
error returns and leaves `integral = -1`, which is not at least `-max_integral = 1`. -/
theorem integral_clamped_counterexample :
    PIDController.update passThrough (PIDController.new 0 0 0 (-1) (Double.fin 0)) 0 0 1000000
      = .returned 0 { kp := 0, ki := 0, kd := 0, integral := -1, previous_error := 0,
                      derivative_filter := Double.fin 0, max_integral := -1 } ∧
    ¬ (-(PIDController.update passThrough (PIDController.new 0 0 0 (-1) (Double.fin 0)) 0 0
            1000000).state.max_integral
          ≤ (PIDController.update passThrough (PIDController.new 0 0 0 (-1) (Double.fin 0)) 0 0
            1000000).state.integral ∧
        (PIDController.update passThrough (PIDController.new 0 0 0 (-1) (Double.fin 0)) 0 0
            1000000).state.integral
          ≤ (PIDController.update passThrough (PIDController.new 0 0 0 (-1) (Double.fin 0)) 0 0
            1000000).state.max_integral) := by
  have h : PIDController.update passThrough (PIDController.new 0 0 0 (-1) (Double.fin 0)) 0 0 1000000
      = .returned 0 { kp := 0, ki := 0, kd := 0, integral := -1, previous_error := 0,
                      derivative_filter := Double.fin 0, max_integral := -1 } := by
    norm_num [PIDController.update, PIDController.new, passThrough, MICROS_TO_SECONDS_DOUBLE]
  rw [h]
  norm_num [UpdateResult.state]

/-! ## Output of `update` -/

/-- C2: for every filter, state, setpoint, input and timing-service reading `us` whose time
step `dt = us / 1000000` is not zero, `update` returns
`kp * error + ki * I + kd * D` with `error = setpoint - input`, `I` the integral held by
the state the call leaves (the accumulated and clamped value, not the one before the call)
and `D` the answer of `derivative_filter.update ((error - previous_error) / dt)` on the
filter state and `previous_error` of before the call; the filter is left in the state
produced by that one call, and a recording filter's log grows by exactly that one entry. -/
theorem update_output_formula {σ : Type} (F : Filter σ) (c : PIDController σ)
    (setpoint input : ℚ) (us : ℤ) (hdt : MICROS_TO_SECONDS_DOUBLE us ≠ 0) :
    c.update F setpoint input us =
      .returned
        (c.kp * (setpoint - input) + c.ki * (c.update F setpoint input us).state.integral +
          c.kd * (F.update c.derivative_filter
            ((setpoint - input - c.previous_error) / MICROS_TO_SECONDS_DOUBLE us)).1)
        (c.update F setpoint input us).state ∧
    (c.update F setpoint input us).state.integral =
      (if c.integral + (setpoint - input) * MICROS_TO_SECONDS_DOUBLE us > c.max_integral then
        c.max_integral
      else if c.integral + (setpoint - input) * MICROS_TO_SECONDS_DOUBLE us < -c.max_integral then
        -c.max_integral
      else c.integral + (setpoint - input) * MICROS_TO_SECONDS_DOUBLE us) ∧
    (c.update F setpoint input us).state.derivative_filter =
      (F.update c.derivative_filter
        ((setpoint - input - c.previous_error) / MICROS_TO_SECONDS_DOUBLE us)).2 ∧
    ∀ d : PIDController (List FilterCall),
      (d.update recorder setpoint input us).state.derivative_filter =
        d.derivative_filter ++
          [FilterCall.update
            ((setpoint - input - d.previous_error) / MICROS_TO_SECONDS_DOUBLE us)] := by
  refine ⟨?_, update_state_integral F c setpoint input us, ?_, ?_⟩
  · conv_lhs => rw [update_returned F c setpoint input us hdt]
    congr 1
    conv_rhs => rw [update_returned F c setpoint input us hdt]
    simp [UpdateResult.state]
  · rw [update_returned F c setpoint input us hdt]
    simp [UpdateResult.state]
  · intro d
    rw [update_returned recorder d setpoint input us hdt]
    simp [UpdateResult.state, recorder]

/-- Instance of C2: gains `2, 3, 4`, bound `100`, one call with error `10` after one
second. -/
theorem update_output_formula_witness :
    MICROS_TO_SECONDS_DOUBLE 1000000 ≠ 0 ∧
    (PIDController.update passThrough (PIDController.new 2 3 4 100 (Double.fin 0)) 10 0 1000000).output
      = some 90 := by
  have hdt : MICROS_TO_SECONDS_DOUBLE 1000000 ≠ 0 := by norm_num [MICROS_TO_SECONDS_DOUBLE]
  refine ⟨hdt, ?_⟩
  have h := update_output_formula passThrough (PIDController.new 2 3 4 100 (Double.fin 0)) 10 0 1000000 hdt
  rw [h.1, h.2.1]
  norm_num [UpdateResult.output, PIDController.new, passThrough, MICROS_TO_SECONDS_DOUBLE]

/-- State of a controller at rest: nothing accumulated, no stored error, the filter in a
state of the class `Z`, and a bound that is not negative. -/
theorem update_at_rest {σ : Type} (F : Filter σ) (Z : σ → Prop)
    (hZ : ∀ fs, Z fs → (F.update fs 0).1 = 0 ∧ Z (F.update fs 0).2)
    (c : PIDController σ) (k : Call)
    (hc : c.integral = 0 ∧ c.previous_error = 0 ∧ Z c.derivative_filter ∧ 0 ≤ c.max_integral)
    (hk : k.setpoint = k.input ∧ 0 < k.us) :
    ((c.update F k.setpoint k.input k.us).output = some 0 ∧
      (c.update F k.setpoint k.input k.us).state.integral = 0) ∧
    ((c.update F k.setpoint k.input k.us).state.integral = 0 ∧
      (c.update F k.setpoint k.input k.us).state.previous_error = 0 ∧
      Z (c.update F k.setpoint k.input k.us).state.derivative_filter ∧
      0 ≤ (c.update F k.setpoint k.input k.us).state.max_integral) := by
  obtain ⟨hI, hp, hz, hm⟩ := hc
  obtain ⟨hsp, hus⟩ := hk
  have hdt : MICROS_TO_SECONDS_DOUBLE k.us ≠ 0 := ne_of_gt (micros_pos hus)
  have e0 : c.integral + (k.setpoint - k.input) * MICROS_TO_SECONDS_DOUBLE k.us = 0 := by
    rw [hI, hsp]; ring
  have hint : (c.update F k.setpoint k.input k.us).state.integral = 0 := by
    rw [update_state_integral, e0, if_neg (not_lt.2 hm), if_neg (by linarith)]
  have hr := update_returned F c k.setpoint k.input k.us hdt
  rw [hint] at hr
  have hraw : (k.setpoint - k.input - c.previous_error) / MICROS_TO_SECONDS_DOUBLE k.us = 0 := by
    rw [hp, hsp]; simp
  rw [hraw] at hr
  rw [hr]
  simp [UpdateResult.output, UpdateResult.state, hsp, (hZ _ hz).1, (hZ _ hz).2, hm]

/-- C4 (amended): for every choice of gains and every `max_integral >= 0`, starting from a
freshly constructed controller (integral `0`, previous error `0`) whose filter is in a
state from which it answers `0` to every run of zero inputs, every sequence of `update`
calls with `setpoint = input` and a positive time step is executed in full, and each call
returns `0` and leaves the integral at `0`. -/
theorem zero_error_steady_state {σ : Type} (F : Filter σ) (Z : σ → Prop)
    (hZ : ∀ fs, Z fs → (F.update fs 0).1 = 0 ∧ Z (F.update fs 0).2)
    (kp ki kd max_integral : ℚ) (f0 : σ) (hf0 : Z f0) (hm : 0 ≤ max_integral)
    (calls : List Call) (hcalls : ∀ k ∈ calls, k.setpoint = k.input ∧ 0 < k.us) :
    (PIDController.run F (PIDController.new kp ki kd max_integral f0) calls).length
      = calls.length ∧
    ∀ r ∈ PIDController.run F (PIDController.new kp ki kd max_integral f0) calls,
      r.output = some 0 ∧ r.state.integral = 0 := by
  constructor
  · exact run_length F _ calls
  · exact run_forall F
      (fun c => c.integral = 0 ∧ c.previous_error = 0 ∧ Z c.derivative_filter ∧
        0 ≤ c.max_integral)
      (fun k => k.setpoint = k.input ∧ 0 < k.us) _
      (fun c k hc hk => update_at_rest F Z hZ c k hc hk)
      _ calls ⟨rfl, rfl, hf0, hm⟩ hcalls

/-- Instance of C4: the pass-through filter, gains `2, 3, 4`, bound `5`, two calls with
`setpoint = input` after one second and after 500 microseconds. -/
theorem zero_error_steady_state_witness :
    (∀ fs : Double, fs = Double.fin 0 →
      (passThrough.update fs 0).1 = 0 ∧ (passThrough.update fs 0).2 = Double.fin 0) ∧
    (0 : ℚ) ≤ 5 ∧
    (∀ k ∈ ([⟨7, 7, 1000000⟩, ⟨-3, -3, 500⟩] : List Call), k.setpoint = k.input ∧ 0 < k.us) ∧
    ((PIDController.run passThrough (PIDController.new 2 3 4 5 (Double.fin 0))
        [⟨7, 7, 1000000⟩, ⟨-3, -3, 500⟩]).length
      = ([⟨7, 7, 1000000⟩, ⟨-3, -3, 500⟩] : List Call).length ∧
    ∀ r ∈ PIDController.run passThrough (PIDController.new 2 3 4 5 (Double.fin 0))
        [⟨7, 7, 1000000⟩, ⟨-3, -3, 500⟩],
      r.output = some 0 ∧ r.state.integral = 0) := by
  have h1 : ∀ fs : Double, fs = Double.fin 0 →
      (passThrough.update fs 0).1 = 0 ∧ (passThrough.update fs 0).2 = Double.fin 0 := by
    intro fs _; simp [passThrough]
  have h2 : ∀ k ∈ ([⟨7, 7, 1000000⟩, ⟨-3, -3, 500⟩] : List Call),
      k.setpoint = k.input ∧ 0 < k.us := by
    intro k hk
    simp only [List.mem_cons, List.mem_singleton, List.not_mem_nil, or_false] at hk
    rcases hk with rfl | rfl <;> simp
  exact ⟨h1, by norm_num, h2,
    zero_error_steady_state passThrough (fun s => s = Double.fin 0) h1 2 3 4 5 (Double.fin 0) rfl (by norm_num) _ h2⟩

/-- C4 as stated fails for a negative bound: with `ki = 1`, `max_integral = -1` and the
pass-through filter, the first call with `setpoint = input = 0` after one second returns
`-1` and leaves `integral = -1`. -/
theorem zero_error_steady_state_counterexample :
    PIDController.update passThrough (PIDController.new 0 1 0 (-1) (Double.fin 0)) 0 0 1000000
      = .returned (-1) { kp := 0, ki := 1, kd := 0, integral := -1, previous_error := 0,
                         derivative_filter := Double.fin 0, max_integral := -1 } ∧
    (PIDController.update passThrough (PIDController.new 0 1 0 (-1) (Double.fin 0)) 0 0 1000000).output
      ≠ some 0 ∧
    (PIDController.update passThrough (PIDController.new 0 1 0 (-1) (Double.fin 0)) 0 0
      1000000).state.integral ≠ 0 := by
  have h : PIDController.update passThrough (PIDController.new 0 1 0 (-1) (Double.fin 0)) 0 0 1000000
      = .returned (-1) { kp := 0, ki := 1, kd := 0, integral := -1, previous_error := 0,
                         derivative_filter := Double.fin 0, max_integral := -1 } := by
    norm_num [PIDController.update, PIDController.new, passThrough, MICROS_TO_SECONDS_DOUBLE]
  rw [h]
  norm_num [UpdateResult.output, UpdateResult.state]

/-! ## Accumulation and clamping -/

/-- C5: for every bound `max_integral >= 0`, every stored integral `I`, every setpoint and
input (error `e`) and every timing reading (time step `dt`, zero included), the integral
stored by `update` is `min (max (I + e * dt) (-max_integral)) max_integral`; when
`I + e * dt` lies within the bounds it is stored unchanged; and for a non-zero reading the
call returns, leaving exactly that state. -/
theorem accumulate_then_hard_clamp {σ : Type} (F : Filter σ) (c : PIDController σ)
    (setpoint input : ℚ) (us : ℤ) (hm : 0 ≤ c.max_integral) :
    (c.update F setpoint input us).state.integral =
      min (max (c.integral + (setpoint - input) * MICROS_TO_SECONDS_DOUBLE us)
        (-c.max_integral)) c.max_integral ∧
    (-c.max_integral ≤ c.integral + (setpoint - input) * MICROS_TO_SECONDS_DOUBLE us →
      c.integral + (setpoint - input) * MICROS_TO_SECONDS_DOUBLE us ≤ c.max_integral →
      (c.update F setpoint input us).state.integral =
        c.integral + (setpoint - input) * MICROS_TO_SECONDS_DOUBLE us) ∧
    (us ≠ 0 → ∃ o, c.update F setpoint input us =
      .returned o (c.update F setpoint input us).state) := by
  refine ⟨?_, ?_, ?_⟩
  · rw [update_state_integral]
    split_ifs with h1 h2
    · rw [max_eq_left (by linarith), min_eq_right (le_of_lt h1)]
    · rw [max_eq_right (le_of_lt h2), min_eq_left (by linarith)]
    · rw [max_eq_left (not_lt.1 h2), min_eq_left (not_lt.1 h1)]
  · intro h1 h2
    rw [update_state_integral, if_neg (not_lt.2 h2), if_neg (not_lt.2 h1)]
  · intro hus
    have hdt : MICROS_TO_SECONDS_DOUBLE us ≠ 0 := fun h => hus ((micros_eq_zero_iff us).1 h)
    exact update_returns F c setpoint input us hdt

/-- Instance of C5: bound `5`, stored integral `0`, error `10` over one second: the stored
integral is `min (max 10 (-5)) 5`. -/
theorem accumulate_then_hard_clamp_witness :
    (0 : ℚ) ≤ (PIDController.new 0 1 0 5 (Double.fin 0)).max_integral ∧
    (PIDController.update passThrough (PIDController.new 0 1 0 5 (Double.fin 0)) 10 0 1000000).state.integral
      = 5 := by
  have hm : (0 : ℚ) ≤ (PIDController.new 0 1 0 5 (Double.fin 0)).max_integral := by
    norm_num [PIDController.new]
  refine ⟨hm, ?_⟩
  rw [(accumulate_then_hard_clamp passThrough (PIDController.new 0 1 0 5 (Double.fin 0)) 10 0 1000000 hm).1]
  norm_num [PIDController.new, MICROS_TO_SECONDS_DOUBLE]

/-! ## `reset` -/

/-- C6: from every state and for every filter, `reset` leaves `integral = 0` and
`previous_error = 0`, leaves the filter in the state its own `reset` produces from the
state before, and leaves `kp`, `ki`, `kd` and `max_integral` as they were; on a recording
filter the log grows by exactly one `reset` entry. -/
theorem reset_postcondition {σ : Type} (F : Filter σ) (c : PIDController σ) :
    (c.reset F).integral = 0 ∧ (c.reset F).previous_error = 0 ∧
    (c.reset F).derivative_filter = F.reset c.derivative_filter ∧
    (c.reset F).kp = c.kp ∧ (c.reset F).ki = c.ki ∧ (c.reset F).kd = c.kd ∧
    (c.reset F).max_integral = c.max_integral ∧
    ∀ d : PIDController (List FilterCall),
      (d.reset recorder).derivative_filter = d.derivative_filter ++ [FilterCall.reset] := by
  refine ⟨rfl, rfl, rfl, rfl, rfl, rfl, rfl, ?_⟩
  intro d
  rfl

/-- C7: for every filter whose `reset` is idempotent and every controller state, `reset`
followed by `reset` gives the same controller and filter state as one `reset`; and a
controller in the zero state (integral `0`, previous error `0`, filter just reset) is left
as it is by `reset`, the filter's output staying at its reset value. -/
theorem reset_idempotent {σ : Type} (F : Filter σ) (c : PIDController σ)
    (hF : ∀ fs, F.reset (F.reset fs) = F.reset fs) :
    (c.reset F).reset F = c.reset F ∧
    ∀ (z : PIDController σ) (fs : σ), z.integral = 0 → z.previous_error = 0 →
      z.derivative_filter = F.reset fs →
      z.reset F = z ∧ (z.reset F).integral = 0 ∧ (z.reset F).previous_error = 0 ∧
      (z.reset F).get_derivative F = F.get_output (F.reset fs) := by
  constructor
  · simp [PIDController.reset, hF]
  · intro z fs h1 h2 h3
    have hz : z.reset F = z := by
      cases z
      simp only [PIDController.reset] at *
      simp [h1, h2, h3, hF]
    refine ⟨hz, ?_, ?_, ?_⟩
    · rw [hz]; exact h1
    · rw [hz]; exact h2
    · rw [hz, PIDController.get_derivative, h3]

/-- Instance of C7: the pass-through filter, whose `reset` always gives `0`, on a state
with integral `3`, previous error `4` and filter output `9`. -/
theorem reset_idempotent_witness :
    (∀ fs : Double, passThrough.reset (passThrough.reset fs) = passThrough.reset fs) ∧
    (PIDController.reset passThrough
        (PIDController.reset passThrough
          { kp := 1, ki := 2, kd := 3, integral := 3, previous_error := 4,
            derivative_filter := Double.fin 9, max_integral := 5 })
      = PIDController.reset passThrough
          { kp := 1, ki := 2, kd := 3, integral := 3, previous_error := 4,
            derivative_filter := Double.fin 9, max_integral := 5 }) :=
  ⟨fun _ => rfl,
   (reset_idempotent passThrough
      { kp := 1, ki := 2, kd := 3, integral := 3, previous_error := 4,
        derivative_filter := Double.fin 9, max_integral := 5 } (fun _ => rfl)).1⟩

/-- No public operation changes `max_integral`. -/
theorem exec_max_integral {σ : Type} (F : Filter σ) (ops : List Op) (c : PIDController σ) :
    (PIDController.exec F c ops).max_integral = c.max_integral := by
  induction ops generalizing c with
  | nil => rfl
  | cons op ops ih =>
    cases op with
    | update k =>
      simp only [PIDController.exec]
      rw [ih]
      exact (update_state_params F c k.setpoint k.input k.us).2.2.2
    | reset =>
      simp only [PIDController.exec]
      exact ih (c.reset F)
    | set_kp v =>
      simp only [PIDController.exec]
      exact ih (c.set_kp v)
    | set_ki v =>
      simp only [PIDController.exec]
      exact ih (c.set_ki v)
    | set_kd v =>
      simp only [PIDController.exec]
      exact ih (c.set_kd v)

/-- C8: for every filter whose `reset` restores the state `f0` the filter had when the
controller was constructed, and every state `c` reached from the constructed controller
by a sequence of `update` (with any time steps, zero included), `reset`, `set_kp`, `set_ki`
and `set_kd` calls, the state after `reset` is the state of a controller freshly
constructed with the current `kp`, `ki`, `kd` and the same `max_integral`; hence `update`
after `reset` has the same outcome (returned value and state left) as `update` on that
fresh controller, for every setpoint, input and timing reading. -/
theorem reset_equals_fresh_construction {σ : Type} (F : Filter σ) (f0 : σ)
    (hF : ∀ fs, F.reset fs = f0) (kp ki kd max_integral : ℚ) (ops : List Op)
    (c : PIDController σ)
    (hc : PIDController.exec F (PIDController.new kp ki kd max_integral f0) ops = c) :
    c.reset F = PIDController.new c.get_kp c.get_ki c.get_kd max_integral f0 ∧
    ∀ (setpoint input : ℚ) (us : ℤ),
      (c.reset F).update F setpoint input us =
        (PIDController.new c.get_kp c.get_ki c.get_kd max_integral f0).update F setpoint
          input us := by
  have hm : c.max_integral = max_integral := by
    rw [← hc]
    exact exec_max_integral F ops _
  have hr : c.reset F = PIDController.new c.get_kp c.get_ki c.get_kd max_integral f0 := by
    simp [PIDController.reset, PIDController.new, PIDController.get_kp, PIDController.get_ki,
      PIDController.get_kd, hF, hm]
  exact ⟨hr, fun setpoint input us => by rw [hr]⟩

/-- Instance of C8: the pass-through filter (reset state `0`), a controller constructed
with gains `1, 2, 3` and bound `5`, then one `update` with error `10` after one second, one
`update` with error `3` and no time elapsed (the filter then holds `-inf`) and
`set_kp 7`. -/
theorem reset_equals_fresh_construction_witness :
    (∀ fs : Double, passThrough.reset fs = Double.fin 0) ∧
    PIDController.exec passThrough (PIDController.new 1 2 3 5 (Double.fin 0))
        [Op.update ⟨10, 0, 1000000⟩, Op.update ⟨3, 0, 0⟩, Op.set_kp 7]
      = { kp := 7, ki := 2, kd := 3, integral := 5, previous_error := 3,
          derivative_filter := Double.neg_inf, max_integral := 5 } ∧
    PIDController.reset passThrough
        { kp := 7, ki := 2, kd := 3, integral := 5, previous_error := 3,
          derivative_filter := Double.neg_inf, max_integral := 5 }
      = PIDController.new 7 2 3 5 (Double.fin 0) := by
  have h1 : ∀ fs : Double, passThrough.reset fs = Double.fin 0 := fun _ => rfl
  have h2 : PIDController.exec passThrough (PIDController.new 1 2 3 5 (Double.fin 0))
        [Op.update ⟨10, 0, 1000000⟩, Op.update ⟨3, 0, 0⟩, Op.set_kp 7]
      = { kp := 7, ki := 2, kd := 3, integral := 5, previous_error := 3,
          derivative_filter := Double.neg_inf, max_integral := 5 } := by
    norm_num [PIDController.exec, PIDController.update, PIDController.new,
      PIDController.set_kp, passThrough, MICROS_TO_SECONDS_DOUBLE, UpdateResult.state,
      Double.div_zero]
  exact ⟨h1, h2, (reset_equals_fresh_construction passThrough (Double.fin 0) h1 1 2 3 5 _ _ h2).1⟩

/-! ## Saturation -/

/-- One call whose error times the time step reaches the bound, on a state whose integral
is not negative, stores the bound itself. -/
theorem update_saturates {σ : Type} (F : Filter σ) (c : PIDController σ)
    (setpoint input : ℚ) (us : ℤ) (hm : 0 ≤ c.max_integral) (hI : 0 ≤ c.integral)
    (hge : c.max_integral ≤ (setpoint - input) * MICROS_TO_SECONDS_DOUBLE us) :
    (c.update F setpoint input us).state.integral = c.max_integral := by
  rw [update_state_integral]
  split_ifs with h1 h2
  · rfl
  · linarith
  · exact le_antisymm (not_lt.1 h1) (by linarith)

/-- C10: with the pass-through filter and `kp = 0`, `ki = 0`, for every `kd`, stored
previous error `p`, stored integral and bound, every setpoint and input and every positive
time step `dt`, `update` returns `kd * ((setpoint - input) - p) / dt`. -/
theorem derivative_only_pass_through (c : PIDController Double) (setpoint input : ℚ) (us : ℤ)
    (hkp : c.kp = 0) (hki : c.ki = 0) (hus : 0 < us) :
    (c.update passThrough setpoint input us).output =
      some (c.kd * ((setpoint - input) - c.previous_error) / MICROS_TO_SECONDS_DOUBLE us) := by
  have hdt : MICROS_TO_SECONDS_DOUBLE us ≠ 0 := ne_of_gt (micros_pos hus)
  rw [update_returned passThrough c setpoint input us hdt]
  simp [UpdateResult.output, hkp, hki, passThrough, mul_div_assoc]

/-- Scenario C: `kp = 0, ki = 0, kd = 1, max_integral = 100`, from the constructed state:
the first call with `setpoint = 0`, `input = 0`, `dt = 1 s` returns `0` and the second call
with error `5`, `dt = 1 s` returns `5`. -/
theorem derivative_only_pass_through_witness :
    (PIDController.new 0 0 1 100 (Double.fin 0)).kp = 0 ∧
    (PIDController.new 0 0 1 100 (Double.fin 0)).ki = 0 ∧ (0 : ℤ) < 1000000 ∧
    PIDController.update passThrough (PIDController.new 0 0 1 100 (Double.fin 0)) 0 0 1000000
      = .returned 0 (PIDController.new 0 0 1 100 (Double.fin 0)) ∧
    (PIDController.update passThrough (PIDController.new 0 0 1 100 (Double.fin 0)) 0 (-5) 1000000).output
      = some 5 := by
  refine ⟨rfl, rfl, by decide, ?_, ?_⟩
  · norm_num [PIDController.update, PIDController.new, passThrough, MICROS_TO_SECONDS_DOUBLE]
  · rw [derivative_only_pass_through (PIDController.new 0 0 1 100 (Double.fin 0)) 0 (-5) 1000000 rfl rfl
      (by decide)]
    norm_num [PIDController.new, MICROS_TO_SECONDS_DOUBLE]

/-! ## Frame conditions, bookkeeping and construction -/

/-- C11: for every filter, state, setpoint, input and timing reading, the state held by the
outcome of `update` (at every time step, zero included) has the same `kp`, `ki`, `kd` and
`max_integral` as before the call: only `integral`, `previous_error` and the filter state
can differ. -/
theorem update_frame {σ : Type} (F : Filter σ) (c : PIDController σ)
    (setpoint input : ℚ) (us : ℤ) :
    (c.update F setpoint input us).state.get_kp = c.get_kp ∧
    (c.update F setpoint input us).state.get_ki = c.get_ki ∧
    (c.update F setpoint input us).state.get_kd = c.get_kd ∧
    (c.update F setpoint input us).state.get_max_integral = c.get_max_integral ∧
    (c.update F setpoint input us).state =
      { c with
        integral := (c.update F setpoint input us).state.integral
        previous_error := (c.update F setpoint input us).state.previous_error
        derivative_filter := (c.update F setpoint input us).state.derivative_filter } := by
  have hp := update_state_params F c setpoint input us
  refine ⟨hp.1, hp.2.1, hp.2.2.1, hp.2.2.2, ?_⟩
  cases hs : (c.update F setpoint input us).state
  rw [hs] at hp
  simp only at hp
  simp [hp.1, hp.2.1, hp.2.2.1, hp.2.2.2]

/-- C12: for every filter, state, setpoint, input and timing reading (zero included), after
`update` `get_previous_error` is `setpoint - input`, whatever the gains, the bound and the
filter, and the filter has made one `update` step on the quotient
`(error - previous_error) / dt` formed with the `previous_error` stored before the call; so
in two consecutive calls with errors `e1` then `e2` the filter receives
`(e1 - previous_error) / dt1` and then `(e2 - e1) / dt2`, as the log of a recording filter
shows; a call with a non-zero reading returns a finite value. -/
theorem previous_error_bookkeeping {σ : Type} (F : Filter σ) (c : PIDController σ)
    (sp1 in1 : ℚ) (us1 : ℤ) (sp2 in2 : ℚ) (us2 : ℤ) :
    (c.update F sp1 in1 us1).state.get_previous_error = sp1 - in1 ∧
    (c.update F sp1 in1 us1).state.derivative_filter =
      (F.feed c.derivative_filter
        (Double.quot (sp1 - in1 - c.get_previous_error) (MICROS_TO_SECONDS_DOUBLE us1))).2 ∧
    ((c.update F sp1 in1 us1).state.update F sp2 in2 us2).state.get_previous_error
      = sp2 - in2 ∧
    ((c.update F sp1 in1 us1).state.update F sp2 in2 us2).state.derivative_filter =
      (F.feed (c.update F sp1 in1 us1).state.derivative_filter
        (Double.quot (sp2 - in2 - (sp1 - in1)) (MICROS_TO_SECONDS_DOUBLE us2))).2 ∧
    (∀ d : PIDController (List FilterCall),
      ((d.update recorder sp1 in1 us1).state.update recorder sp2 in2 us2).state.derivative_filter
        = (recorder.feed
            (recorder.feed d.derivative_filter
              (Double.quot (sp1 - in1 - d.get_previous_error)
                (MICROS_TO_SECONDS_DOUBLE us1))).2
            (Double.quot (sp2 - in2 - (sp1 - in1)) (MICROS_TO_SECONDS_DOUBLE us2))).2) ∧
    (∀ d : PIDController (List FilterCall), us1 ≠ 0 → us2 ≠ 0 →
      ((d.update recorder sp1 in1 us1).state.update recorder sp2 in2 us2).state.derivative_filter
        = d.derivative_filter ++
          [FilterCall.update ((sp1 - in1 - d.get_previous_error) / MICROS_TO_SECONDS_DOUBLE us1),
           FilterCall.update ((sp2 - in2 - (sp1 - in1)) / MICROS_TO_SECONDS_DOUBLE us2)]) ∧
    (us1 ≠ 0 → ∃ o, c.update F sp1 in1 us1 = .returned o (c.update F sp1 in1 us1).state) := by
  have two : ∀ {τ : Type} (G : Filter τ) (d : PIDController τ),
      ((d.update G sp1 in1 us1).state.update G sp2 in2 us2).state.derivative_filter =
        (G.feed (d.update G sp1 in1 us1).state.derivative_filter
          (Double.quot (sp2 - in2 - (sp1 - in1)) (MICROS_TO_SECONDS_DOUBLE us2))).2 := by
    intro τ G d
    rw [update_state_filter G _ sp2 in2 us2, update_state_previous_error G d sp1 in1 us1]
  refine ⟨update_state_previous_error F c sp1 in1 us1, update_state_filter F c sp1 in1 us1,
    update_state_previous_error F _ sp2 in2 us2, two F c, ?_, ?_, ?_⟩
  · intro d
    rw [two recorder d, update_state_filter recorder d sp1 in1 us1]
    rfl
  · intro d h1 h2
    have hd1 : MICROS_TO_SECONDS_DOUBLE us1 ≠ 0 := fun h => h1 ((micros_eq_zero_iff us1).1 h)
    have hd2 : MICROS_TO_SECONDS_DOUBLE us2 ≠ 0 := fun h => h2 ((micros_eq_zero_iff us2).1 h)
    rw [two recorder d, update_state_filter recorder d sp1 in1 us1]
    simp [Double.quot, hd1, hd2, Filter.feed, recorder, PIDController.get_previous_error]
  · intro h1
    exact update_returns F c sp1 in1 us1 (fun h => h1 ((micros_eq_zero_iff us1).1 h))

/-- C13: for every state and value `v`, `set_kp v` makes `get_kp` return `v` and leaves
every other field as it was, and so do `set_ki v` with `get_ki` and `set_kd v` with
`get_kd`; and `max_integral` is the same after any single operation (`update`, `reset`, a
setter) and after any sequence of operations. -/
theorem gain_setters_independent {σ : Type} (F : Filter σ) (c : PIDController σ) (v : ℚ) :
    ((c.set_kp v).get_kp = v ∧
      c.set_kp v = { c with kp := v } ∧ (c.set_kp v).get_ki = c.get_ki ∧
      (c.set_kp v).get_kd = c.get_kd ∧ (c.set_kp v).get_max_integral = c.get_max_integral ∧
      (c.set_kp v).get_integral = c.get_integral ∧
      (c.set_kp v).get_previous_error = c.get_previous_error ∧
      (c.set_kp v).derivative_filter = c.derivative_filter) ∧
    ((c.set_ki v).get_ki = v ∧
      c.set_ki v = { c with ki := v } ∧ (c.set_ki v).get_kp = c.get_kp ∧
      (c.set_ki v).get_kd = c.get_kd ∧ (c.set_ki v).get_max_integral = c.get_max_integral ∧
      (c.set_ki v).get_integral = c.get_integral ∧
      (c.set_ki v).get_previous_error = c.get_previous_error ∧
      (c.set_ki v).derivative_filter = c.derivative_filter) ∧
    ((c.set_kd v).get_kd = v ∧
      c.set_kd v = { c with kd := v } ∧ (c.set_kd v).get_kp = c.get_kp ∧
      (c.set_kd v).get_ki = c.get_ki ∧ (c.set_kd v).get_max_integral = c.get_max_integral ∧
      (c.set_kd v).get_integral = c.get_integral ∧
      (c.set_kd v).get_previous_error = c.get_previous_error ∧
      (c.set_kd v).derivative_filter = c.derivative_filter) ∧
    (∀ (setpoint input : ℚ) (us : ℤ),
      (c.update F setpoint input us).state.get_max_integral = c.get_max_integral) ∧
    (c.reset F).get_max_integral = c.get_max_integral ∧
    ∀ ops : List Op, (PIDController.exec F c ops).get_max_integral = c.get_max_integral := by
  refine ⟨⟨rfl, rfl, rfl, rfl, rfl, rfl, rfl, rfl⟩, ⟨rfl, rfl, rfl, rfl, rfl, rfl, rfl, rfl⟩,
    ⟨rfl, rfl, rfl, rfl, rfl, rfl, rfl, rfl⟩, ?_, rfl, ?_⟩
  · intro setpoint input us
    exact (update_state_params F c setpoint input us).2.2.2
  · intro ops
    exact exec_max_integral F ops c

/-- C14: a controller constructed with `kp`, `ki`, `kd` and `max_integral` answers exactly
these values from `get_kp`, `get_ki`, `get_kd` and `get_max_integral` (the bound as given,
negative or not), `0` from `get_integral` and `get_previous_error`, and the filter is in
the state it was handed over in: on a recording filter the log is unchanged. -/
theorem initial_state {σ : Type} (kp ki kd max_integral : ℚ) (f : σ) :
    (PIDController.new kp ki kd max_integral f).get_kp = kp ∧
    (PIDController.new kp ki kd max_integral f).get_ki = ki ∧
    (PIDController.new kp ki kd max_integral f).get_kd = kd ∧
    (PIDController.new kp ki kd max_integral f).get_max_integral = max_integral ∧
    (PIDController.new kp ki kd max_integral f).get_integral = 0 ∧
    (PIDController.new kp ki kd max_integral f).get_previous_error = 0 ∧
    (PIDController.new kp ki kd max_integral f).derivative_filter = f ∧
    (∀ log : List FilterCall,
      (PIDController.new kp ki kd max_integral log).derivative_filter = log) ∧
    (PIDController.new kp ki kd (-max_integral) f).get_max_integral = -max_integral :=
  ⟨rfl, rfl, rfl, rfl, rfl, rfl, rfl, fun _ => rfl, rfl⟩

/-! ## `get_derivative` -/

/-- C15: `get_derivative` is the filter's `get_output` on the current filter state (a value
read off the state, which it leaves as it is). Hence, for a filter whose `get_output`
answers the value of its most recent `update`, after `update` with a non-zero timing
reading `get_derivative` is that (finite) value `D` and the returned value is
`get_kp * (setpoint - input) + get_ki * get_integral + get_kd * D` on the state left; on a
constructed controller and right after `reset`, `get_derivative` is the filter's output in
its handed-over, respectively reset, state. -/
theorem get_derivative_reflects_filter {σ : Type} (F : Filter σ) (c : PIDController σ)
    (setpoint input : ℚ) (us : ℤ)
    (hF : ∀ fs x, F.get_output (F.update fs x).2 = Double.fin (F.update fs x).1)
    (hus : us ≠ 0) :
    c.get_derivative F = F.get_output c.derivative_filter ∧
    (∃ D, (c.update F setpoint input us).state.get_derivative F = Double.fin D ∧
      c.update F setpoint input us =
        .returned
          ((c.update F setpoint input us).state.get_kp * (setpoint - input) +
            (c.update F setpoint input us).state.get_ki *
              (c.update F setpoint input us).state.get_integral +
            (c.update F setpoint input us).state.get_kd * D)
          (c.update F setpoint input us).state) ∧
    (c.update F setpoint input us).value =
      Double.fin ((c.update F setpoint input us).state.get_kp * (setpoint - input) +
          (c.update F setpoint input us).state.get_ki *
            (c.update F setpoint input us).state.get_integral) +
        Double.fin (c.update F setpoint input us).state.get_kd *
          (c.update F setpoint input us).state.get_derivative F ∧
    (c.update F setpoint input us).state.get_derivative F =
      Double.fin (F.update c.derivative_filter
        ((setpoint - input - c.previous_error) / MICROS_TO_SECONDS_DOUBLE us)).1 ∧
    (∀ (kp ki kd max_integral : ℚ) (f0 : σ),
      (PIDController.new kp ki kd max_integral f0).get_derivative F = F.get_output f0) ∧
    (c.reset F).get_derivative F = F.get_output (F.reset c.derivative_filter) := by
  have hdt : MICROS_TO_SECONDS_DOUBLE us ≠ 0 := fun h => hus ((micros_eq_zero_iff us).1 h)
  have hp := update_state_params F c setpoint input us
  have hfs : (c.update F setpoint input us).state.derivative_filter =
      (F.update c.derivative_filter
        ((setpoint - input - c.previous_error) / MICROS_TO_SECONDS_DOUBLE us)).2 := by
    rw [update_returned F c setpoint input us hdt]
    rfl
  have hder : (c.update F setpoint input us).state.get_derivative F =
      Double.fin (F.update c.derivative_filter
        ((setpoint - input - c.previous_error) / MICROS_TO_SECONDS_DOUBLE us)).1 := by
    unfold PIDController.get_derivative
    rw [hfs, hF]
  have hret : c.update F setpoint input us =
      .returned
        ((c.update F setpoint input us).state.get_kp * (setpoint - input) +
          (c.update F setpoint input us).state.get_ki *
            (c.update F setpoint input us).state.get_integral +
          (c.update F setpoint input us).state.get_kd *
            (F.update c.derivative_filter
              ((setpoint - input - c.previous_error) / MICROS_TO_SECONDS_DOUBLE us)).1)
        (c.update F setpoint input us).state := by
    simp only [PIDController.get_kp, PIDController.get_ki, PIDController.get_kd,
      PIDController.get_integral, hp.1, hp.2.1, hp.2.2.1]
    conv_lhs => rw [update_returned F c setpoint input us hdt]
    congr 1
    conv_rhs => rw [update_returned F c setpoint input us hdt]
    simp [UpdateResult.state]
  refine ⟨rfl, ⟨_, hder, hret⟩, ?_, hder, fun _ _ _ _ _ => rfl, rfl⟩
  rw [hder, Double.fin_mul_fin, Double.fin_add_fin]
  conv_lhs => rw [hret]
  rfl

/-- Instance of C15: the pass-through filter, gains `2, 3, 4`, bound `100`, error `10`
after one second: `get_derivative` is `10` after the call. -/
theorem get_derivative_reflects_filter_witness :
    (∀ (fs : Double) (x : ℚ), passThrough.get_output (passThrough.update fs x).2
      = Double.fin (passThrough.update fs x).1) ∧
    (1000000 : ℤ) ≠ 0 ∧
    (PIDController.update passThrough (PIDController.new 2 3 4 100 (Double.fin 0)) 10 0
      1000000).state.get_derivative passThrough = Double.fin 10 := by
  have hF : ∀ (fs : Double) (x : ℚ), passThrough.get_output (passThrough.update fs x).2
      = Double.fin (passThrough.update fs x).1 := fun _ _ => rfl
  refine ⟨hF, by decide, ?_⟩
  rw [(get_derivative_reflects_filter passThrough (PIDController.new 2 3 4 100 (Double.fin 0))
    10 0 1000000 hF (by decide)).2.2.2.1]
  norm_num [passThrough, PIDController.new, MICROS_TO_SECONDS_DOUBLE]

/-! ## Division by zero -/

/-- C16: nothing in `update` guards the division by `dt`: for every filter, state,
setpoint and input, the division of line 39 is defined, and `update` returns its value,
exactly when the timing reading is not `0`, and line 39 divides by zero exactly when the
reading is `0` (whether or not the error equals the stored previous error). -/
theorem division_by_zero_hazard {σ : Type} (F : Filter σ) (c : PIDController σ)
    (setpoint input : ℚ) (us : ℤ) :
    ((∃ o c1, c.update F setpoint input us = .returned o c1) ↔ us ≠ 0) ∧
    ((∃ v c1, c.update F setpoint input us = .div_by_zero v c1) ↔ us = 0) ∧
    ((c.update F setpoint input us).output = none ↔ us = 0) ∧
    ((c.update F setpoint input us).output = none ↔ MICROS_TO_SECONDS_DOUBLE us = 0) := by
  by_cases hus : us = 0
  · have hdt : MICROS_TO_SECONDS_DOUBLE us = 0 := (micros_eq_zero_iff us).2 hus
    have hz := update_div_by_zero F c setpoint input us hdt
    refine ⟨⟨fun ⟨o, c1, h⟩ => ?_, fun h => absurd hus h⟩, ⟨fun _ => hus, fun _ => ⟨_, _, hz⟩⟩,
      ⟨fun _ => hus, fun _ => ?_⟩, ⟨fun _ => hdt, fun _ => ?_⟩⟩
    · rw [hz] at h
      cases h
    · rw [hz]; rfl
    · rw [hz]; rfl
  · have hdt : MICROS_TO_SECONDS_DOUBLE us ≠ 0 := fun h => hus ((micros_eq_zero_iff us).1 h)
    obtain ⟨o, ho⟩ := update_returns F c setpoint input us hdt
    refine ⟨⟨fun _ => hus, fun _ => ⟨o, _, ho⟩⟩, ⟨fun ⟨v, c1, h⟩ => ?_, fun h => absurd h hus⟩,
      ⟨fun h => ?_, fun h => absurd h hus⟩, ⟨fun h => ?_, fun h => absurd h hdt⟩⟩
    · rw [ho] at h
      cases h
    · rw [ho] at h
      cases h
    · rw [ho] at h
      cases h

/-! ## Negative bound -/

/-- C17: for every bound `max_integral < 0`, every stored integral `I`, every setpoint and
input (error `e`) and every timing reading (time step `dt`), the integral stored by
`update` is `max_integral` when `I + e * dt > max_integral` and `-max_integral` otherwise
(the second branch fires whenever the first does not); so it is always one of
`max_integral` and `-max_integral`. -/
theorem negative_bound_clamp {σ : Type} (F : Filter σ) (c : PIDController σ)
    (setpoint input : ℚ) (us : ℤ) (hm : c.max_integral < 0) :
    (c.update F setpoint input us).state.get_integral =
      (if c.integral + (setpoint - input) * MICROS_TO_SECONDS_DOUBLE us > c.max_integral then
        c.max_integral
      else -c.max_integral) ∧
    (¬ c.integral + (setpoint - input) * MICROS_TO_SECONDS_DOUBLE us > c.max_integral →
      c.integral + (setpoint - input) * MICROS_TO_SECONDS_DOUBLE us < -c.max_integral) ∧
    ((c.update F setpoint input us).state.get_integral = c.max_integral ∨
      (c.update F setpoint input us).state.get_integral = -c.max_integral) := by
  have hb : ¬ c.integral + (setpoint - input) * MICROS_TO_SECONDS_DOUBLE us > c.max_integral →
      c.integral + (setpoint - input) * MICROS_TO_SECONDS_DOUBLE us < -c.max_integral := by
    intro h
    have := not_lt.1 h
    linarith
  have hi := update_state_integral F c setpoint input us
  refine ⟨?_, hb, ?_⟩
  · rw [PIDController.get_integral, hi]
    split_ifs with h1 h2
    · rfl
    · rfl
    · exact absurd (hb h1) h2
  · rw [PIDController.get_integral, hi]
    split_ifs with h1 h2
    · exact Or.inl rfl
    · exact Or.inr rfl
    · exact absurd (hb h1) h2

/-- Instance of C17: bound `-1`, stored integral `0`, error `0`: the accumulated `0` is
above the bound, so `-1` is stored. -/
theorem negative_bound_clamp_witness :
    (PIDController.new 0 0 0 (-1) (Double.fin 0)).max_integral < 0 ∧
    (PIDController.update passThrough (PIDController.new 0 0 0 (-1) (Double.fin 0)) 0 0
      1000000).state.get_integral = -1 := by
  have hm : (PIDController.new 0 0 0 (-1) (Double.fin 0)).max_integral < 0 := by
    norm_num [PIDController.new]
  refine ⟨hm, ?_⟩
  rw [(negative_bound_clamp passThrough (PIDController.new 0 0 0 (-1) (Double.fin 0)) 0 0 1000000 hm).1]
  norm_num [PIDController.new, MICROS_TO_SECONDS_DOUBLE]

/-! ## Independence of the internal state from the gains -/

/-- The division of line 39 is undefined exactly when the time step is zero. -/
theorem update_output_eq_none_iff {σ : Type} (F : Filter σ) (c : PIDController σ)
    (setpoint input : ℚ) (us : ℤ) :
    (c.update F setpoint input us).output = none ↔ MICROS_TO_SECONDS_DOUBLE us = 0 := by
  by_cases h : MICROS_TO_SECONDS_DOUBLE us = 0
  · rw [update_div_by_zero F c setpoint input us h]
    simp [UpdateResult.output, h]
  · rw [update_returned F c setpoint input us h]
    simp [UpdateResult.output, h]

/-- One call of `update` on two controllers that differ at most in their gains leaves
states that differ at most in the gains. -/
theorem update_internal {σ : Type} (F : Filter σ) (c d : PIDController σ)
    (setpoint input : ℚ) (us : ℤ) (h : c.internal = d.internal) :
    (c.update F setpoint input us).state.internal =
      (d.update F setpoint input us).state.internal := by
  simp only [PIDController.internal, Prod.mk.injEq] at h
  obtain ⟨hI, hp, hf, hm⟩ := h
  simp only [PIDController.internal, Prod.mk.injEq]
  refine ⟨?_, ?_, ?_, ?_⟩
  · rw [update_state_integral, update_state_integral, hI, hm]
  · rw [update_state_previous_error, update_state_previous_error]
  · rw [update_state_filter, update_state_filter, hp, hf]
  · rw [(update_state_params F c setpoint input us).2.2.2,
      (update_state_params F d setpoint input us).2.2.2, hm]

/-- The same operations on two controllers that differ at most in their gains. -/
theorem exec_internal_congr {σ : Type} (F : Filter σ) (ops : List Op)
    (c d : PIDController σ) (h : c.internal = d.internal) :
    (PIDController.exec F c ops).internal = (PIDController.exec F d ops).internal := by
  induction ops generalizing c d with
  | nil => exact h
  | cons op ops ih =>
    have h4 := h
    simp only [PIDController.internal, Prod.mk.injEq] at h4
    obtain ⟨hI, hp, hf, hm⟩ := h4
    cases op with
    | update k =>
      simp only [PIDController.exec]
      exact ih _ _ (update_internal F c d k.setpoint k.input k.us h)
    | reset =>
      simp only [PIDController.exec]
      exact ih (c.reset F) (d.reset F)
        (by simp [PIDController.internal, PIDController.reset, hf, hm])
    | set_kp v =>
      simp only [PIDController.exec]
      exact ih (c.set_kp v) (d.set_kp v) h
    | set_ki v =>
      simp only [PIDController.exec]
      exact ih (c.set_ki v) (d.set_ki v) h
    | set_kd v =>
      simp only [PIDController.exec]
      exact ih (c.set_kd v) (d.set_kd v) h

/-- Leaving out the gain setters of a sequence of operations changes at most the gains of
the state reached. -/
theorem exec_internal_filter {σ : Type} (F : Filter σ) (ops : List Op)
    (c : PIDController σ) :
    (PIDController.exec F c ops).internal =
      (PIDController.exec F c (ops.filter (fun op => !op.isGainSetter))).internal := by
  induction ops generalizing c with
  | nil => rfl
  | cons op ops ih =>
    cases op with
    | update k =>
      simp only [List.filter_cons, Op.isGainSetter, Bool.not_false, if_true,
        PIDController.exec]
      exact ih _
    | reset =>
      simp only [List.filter_cons, Op.isGainSetter, Bool.not_false, if_true,
        PIDController.exec]
      exact ih (c.reset F)
    | set_kp v =>
      simp only [List.filter_cons, Op.isGainSetter, Bool.not_true, Bool.false_eq_true,
        if_false, PIDController.exec]
      rw [ih (c.set_kp v)]
      exact exec_internal_congr F _ (c.set_kp v) c rfl
    | set_ki v =>
      simp only [List.filter_cons, Op.isGainSetter, Bool.not_true, Bool.false_eq_true,
        if_false, PIDController.exec]
      rw [ih (c.set_ki v)]
      exact exec_internal_congr F _ (c.set_ki v) c rfl
    | set_kd v =>
      simp only [List.filter_cons, Op.isGainSetter, Bool.not_true, Bool.false_eq_true,
        if_false, PIDController.exec]
      rw [ih (c.set_kd v)]
      exact exec_internal_congr F _ (c.set_kd v) c rfl

/-- Two sequences of operations that agree once the gain setters are left out, run on two
controllers that differ at most in their gains. -/
theorem exec_internal_of_filter_eq {σ : Type} (F : Filter σ) (c d : PIDController σ)
    (ops1 ops2 : List Op) (h : c.internal = d.internal)
    (hops : ops1.filter (fun op => !op.isGainSetter) =
      ops2.filter (fun op => !op.isGainSetter)) :
    (PIDController.exec F c ops1).internal = (PIDController.exec F d ops2).internal := by
  rw [exec_internal_filter F ops1 c, exec_internal_filter F ops2 d, hops]
  exact exec_internal_congr F _ c d h

/-- The same calls of `update` on two controllers that differ at most in their gains: the
states after every call differ at most in the gains. -/
theorem run_internal_congr {σ : Type} (F : Filter σ) (calls : List Call)
    (c d : PIDController σ) (h : c.internal = d.internal) :
    (PIDController.run F c calls).map (fun r => r.state.internal) =
      (PIDController.run F d calls).map (fun r => r.state.internal) := by
  induction calls generalizing c d with
  | nil => rfl
  | cons k ks ih =>
    have hk := update_internal F c d k.setpoint k.input k.us h
    simp only [PIDController.run, List.map_cons, hk]
    rw [ih _ _ hk]

/-- C18: take two controllers with the same `max_integral`, integral, previous error and
filter state and any gains. Two sequences of operations that contain the same `update`
(and `reset`) calls in the same order, with any time steps (zero included), but any gain
setters in between, leave the two controllers with the same integral, previous error,
filter state and `max_integral`; as this holds for every such pair of sequences, it holds
after every call. With the recording filter the filter state is the list of raw values
handed over, so these agree too. For the same sequence of `update` calls the states after
each call agree in these fields, and one `update` call leaves the same internal state and
divides by zero on both controllers or on neither. -/
theorem gains_do_not_influence_internal_state {σ : Type} (F : Filter σ)
    (c d : PIDController σ) (ops1 ops2 : List Op) (h : c.internal = d.internal)
    (hops : ops1.filter (fun op => !op.isGainSetter) =
      ops2.filter (fun op => !op.isGainSetter)) :
    (PIDController.exec F c ops1).internal = (PIDController.exec F d ops2).internal ∧
    (∀ r s : PIDController (List FilterCall), r.internal = s.internal →
      (PIDController.exec recorder r ops1).internal =
        (PIDController.exec recorder s ops2).internal) ∧
    (∀ calls : List Call,
      (PIDController.run F c calls).map (fun r => r.state.internal) =
        (PIDController.run F d calls).map (fun r => r.state.internal)) ∧
    ∀ (setpoint input : ℚ) (us : ℤ),
      (c.update F setpoint input us).state.internal =
        (d.update F setpoint input us).state.internal ∧
      ((c.update F setpoint input us).output = none ↔
        (d.update F setpoint input us).output = none) := by
  refine ⟨exec_internal_of_filter_eq F c d ops1 ops2 h hops,
    fun r s hrs => exec_internal_of_filter_eq recorder r s ops1 ops2 hrs hops,
    fun calls => run_internal_congr F calls c d h, ?_⟩
  intro setpoint input us
  refine ⟨update_internal F c d setpoint input us h, ?_⟩
  rw [update_output_eq_none_iff, update_output_eq_none_iff]

/-- Instance of C18: gains `1, 2, 3` against `7, 8, 9`, bound `5`, the recording filter;
an `update` with error `10` after one second and an `update` with error `3` and no time
elapsed, with `set_kp 4` between them on the first controller and `set_kd 2` before them
on the second: both end with integral `5`, previous error `3` and the same two raw values,
`10` and `-inf`, in the log. -/
theorem gains_do_not_influence_internal_state_witness :
    (PIDController.new 1 2 3 5 ([] : List FilterCall)).internal =
      (PIDController.new 7 8 9 5 ([] : List FilterCall)).internal ∧
    ([Op.update ⟨10, 0, 1000000⟩, Op.set_kp 4, Op.update ⟨3, 0, 0⟩].filter
        (fun op => !op.isGainSetter) =
      [Op.set_kd 2, Op.update ⟨10, 0, 1000000⟩, Op.update ⟨3, 0, 0⟩].filter
        (fun op => !op.isGainSetter)) ∧
    (PIDController.exec recorder (PIDController.new 1 2 3 5 [])
        [Op.update ⟨10, 0, 1000000⟩, Op.set_kp 4, Op.update ⟨3, 0, 0⟩]).internal
      = (5, 3, [FilterCall.update 10, FilterCall.update_nonfinite Double.neg_inf], 5) ∧
    (PIDController.exec recorder (PIDController.new 7 8 9 5 [])
        [Op.set_kd 2, Op.update ⟨10, 0, 1000000⟩, Op.update ⟨3, 0, 0⟩]).internal
      = (5, 3, [FilterCall.update 10, FilterCall.update_nonfinite Double.neg_inf], 5) := by
  have h1 : (PIDController.new 1 2 3 5 ([] : List FilterCall)).internal =
      (PIDController.new 7 8 9 5 ([] : List FilterCall)).internal := rfl
  have h2 : [Op.update ⟨10, 0, 1000000⟩, Op.set_kp 4, Op.update ⟨3, 0, 0⟩].filter
        (fun op => !op.isGainSetter) =
      [Op.set_kd 2, Op.update ⟨10, 0, 1000000⟩, Op.update ⟨3, 0, 0⟩].filter
        (fun op => !op.isGainSetter) := rfl
  have h3 : (PIDController.exec recorder (PIDController.new 1 2 3 5 [])
        [Op.update ⟨10, 0, 1000000⟩, Op.set_kp 4, Op.update ⟨3, 0, 0⟩]).internal
      = (5, 3, [FilterCall.update 10, FilterCall.update_nonfinite Double.neg_inf], 5) := by
    norm_num [PIDController.exec, PIDController.update, PIDController.new,
      PIDController.set_kp, PIDController.internal, recorder, MICROS_TO_SECONDS_DOUBLE,
      UpdateResult.state, Double.div_zero]
  refine ⟨h1, h2, h3, ?_⟩
  rw [← (gains_do_not_influence_internal_state recorder _ _ _ _ h1 h2).1]
  exact h3

/-! ## Contribution of the integral term -/

/-- With no rounding `update_rounded` is `update`. -/
theorem update_rounded_id {σ : Type} (F : Filter σ) (c : PIDController σ)
    (setpoint input : ℚ) (us : ℤ) :
    c.update_rounded id F setpoint input us = c.update F setpoint input us := by
  simp only [PIDController.update_rounded, PIDController.update, id, Double.round_id]

/-- Value left in `integral_` by lines 28-38 when the arithmetic is rounded. -/
theorem update_rounded_state_integral {σ : Type} (rnd : ℚ → ℚ) (F : Filter σ)
    (c : PIDController σ) (setpoint input : ℚ) (us : ℤ) :
    (c.update_rounded rnd F setpoint input us).state.integral =
      if rnd (c.integral + rnd (rnd (setpoint - input) * rnd (MICROS_TO_SECONDS_DOUBLE us)))
          > c.max_integral then c.max_integral
      else if rnd (c.integral + rnd (rnd (setpoint - input) *
          rnd (MICROS_TO_SECONDS_DOUBLE us))) < -c.max_integral then -c.max_integral
      else rnd (c.integral + rnd (rnd (setpoint - input) *
          rnd (MICROS_TO_SECONDS_DOUBLE us))) := by
  simp only [PIDController.update_rounded, gt_iff_lt]
  split_ifs <;> simp [UpdateResult.state]

/-- Outcome of `update_rounded` when the rounded time step is not zero. -/
theorem update_rounded_returned {σ : Type} (rnd : ℚ → ℚ) (F : Filter σ)
    (c : PIDController σ) (setpoint input : ℚ) (us : ℤ)
    (h : rnd (MICROS_TO_SECONDS_DOUBLE us) ≠ 0) :
    c.update_rounded rnd F setpoint input us =
      .returned
        (rnd (rnd (rnd (c.kp * rnd (setpoint - input)) +
            rnd (c.ki * (c.update_rounded rnd F setpoint input us).state.integral)) +
          rnd (c.kd * (F.update c.derivative_filter
            (rnd (rnd (rnd (setpoint - input) - c.previous_error) /
              rnd (MICROS_TO_SECONDS_DOUBLE us)))).1)))
        { c with
          integral := (c.update_rounded rnd F setpoint input us).state.integral
          previous_error := rnd (setpoint - input)
          derivative_filter := (F.update c.derivative_filter
            (rnd (rnd (rnd (setpoint - input) - c.previous_error) /
              rnd (MICROS_TO_SECONDS_DOUBLE us)))).2 } := by
  simp only [PIDController.update_rounded, gt_iff_lt, if_neg h]
  split_ifs <;> simp [UpdateResult.state]

/-- Bounds on the integral stored by lines 28-38, whatever the rounding of the
arithmetic, when the bound is not negative. -/
theorem update_rounded_state_integral_bounds {σ : Type} (rnd : ℚ → ℚ) (F : Filter σ)
    (c : PIDController σ) (setpoint input : ℚ) (us : ℤ) (hm : 0 ≤ c.max_integral) :
    -c.max_integral ≤ (c.update_rounded rnd F setpoint input us).state.integral ∧
    (c.update_rounded rnd F setpoint input us).state.integral ≤ c.max_integral := by
  simp only [PIDController.update_rounded, gt_iff_lt]
  split_ifs with h1 _ _ h2 <;> simp only [UpdateResult.state] <;>
    constructor <;> linarith

end roboost
